import Mathlib

/-
  Verification of `generate_data.py` (Brahma Vidya Mandir data aggregator).

  The script reads `Classes.csv`, folds its rows into a nested
  batch → category → text → playlist-list structure, computes aggregate
  counts, and writes `data.json`.  This file gives a shallow embedding of
  the script: Python strings are lists of characters, Python dicts
  (insertion-ordered) are association lists, and each Python function is
  translated to a Lean function of the same name.
-/

namespace BVM

/-- Python strings are modelled as lists of characters. -/
abbrev Str := List Char

/-- Characters of a Lean string literal, for concrete test inputs. -/
def str (s : String) : Str := s.data

/-- Characterwise model of Python `str.lower` (ASCII letters). -/
def lowerChar (c : Char) : Char :=
  if 65 ≤ c.toNat ∧ c.toNat ≤ 90 then Char.ofNat (c.toNat + 32) else c

/-- The whitespace characters stripped by Python `str.strip()` (ASCII range). -/
def pyIsSpace (c : Char) : Bool :=
  c = ' ' || c = '\t' || c = '\n' || c = '\r' || c = '\x0b' || c = '\x0c'

/-- Remove leading whitespace, as Python `str.lstrip()`. -/
def lstrip (l : Str) : Str := l.dropWhile pyIsSpace

/-- Remove trailing whitespace, as Python `str.rstrip()`. -/
def rstrip (l : Str) : Str := (l.reverse.dropWhile pyIsSpace).reverse

/-- Python `str.strip()`: remove leading and trailing whitespace. -/
def pystrip (l : Str) : Str := rstrip (lstrip l)

/-- The lower/replace stages of `normalize_key`:
    `name.lower().replace(" ", "_").replace("-", "_").replace("|", "").replace(".", "")`. -/
def replChars (name : Str) : Str :=
  ((((name.map lowerChar).map
      (fun c => if c = ' ' then '_' else c)).map
      (fun c => if c = '-' then '_' else c)).filter
      (fun c => c ≠ '|')).filter
      (fun c => c ≠ '.')

/-- `normalize_key` from `generate_data.py`:
    `name.lower().replace(" ", "_").replace("-", "_").replace("|", "").replace(".", "").strip()`.
    Note the `.strip()` is applied last, after spaces have been replaced. -/
def normalize_key (name : Str) : Str :=
  pystrip (replChars name)

/- ### Basic facts about the character-level model -/

theorem toNat_charOfNat_valid (n : Nat) (h : n.isValidChar) :
    (Char.ofNat n).toNat = n := by
  simp [Char.ofNat, dif_pos h, Char.ofNatAux, Char.toNat, UInt32.toNat,
    BitVec.toNat_ofNatLt]

theorem toNat_lowerChar (c : Char) :
    (lowerChar c).toNat = if 65 ≤ c.toNat ∧ c.toNat ≤ 90 then c.toNat + 32 else c.toNat := by
  by_cases h : 65 ≤ c.toNat ∧ c.toNat ≤ 90
  · have hv : (c.toNat + 32).isValidChar := by
      left
      omega
    simp [lowerChar, h, toNat_charOfNat_valid _ hv]
  · simp [lowerChar, h]

theorem lowerChar_eq_self_of_not_upper (c : Char)
    (h : ¬ (65 ≤ c.toNat ∧ c.toNat ≤ 90)) : lowerChar c = c := by
  unfold lowerChar
  simp [h]

/-- `lowerChar` never produces an upper-case ASCII letter, hence is idempotent. -/
theorem lowerChar_lowerChar (c : Char) : lowerChar (lowerChar c) = lowerChar c := by
  apply lowerChar_eq_self_of_not_upper
  rw [toNat_lowerChar]
  split
  · omega
  · assumption

/- ### Facts about stripping -/

theorem dropWhile_eq_self_of_head (p : Char → Bool) (l : Str)
    (h : ∀ a, l.head? = some a → p a = false) : l.dropWhile p = l := by
  cases l with
  | nil => rfl
  | cons a l => simp [List.dropWhile_cons, h a rfl]

theorem head?_dropWhile_false (p : Char → Bool) (l : Str) (a : Char)
    (h : (l.dropWhile p).head? = some a) : p a = false := by
  have := List.head?_dropWhile_not p l
  rw [h] at this
  exact this

theorem dropWhile_idem (p : Char → Bool) (l : Str) :
    (l.dropWhile p).dropWhile p = l.dropWhile p := by
  apply dropWhile_eq_self_of_head
  intro a ha
  exact head?_dropWhile_false p l a ha

theorem rstrip_append_eq (l : Str) : ∃ t, rstrip l ++ t = l := by
  obtain ⟨w, hw⟩ := List.dropWhile_suffix (l := l.reverse) pyIsSpace
  refine ⟨w.reverse, ?_⟩
  rw [rstrip, ← List.reverse_append, hw, List.reverse_reverse]

theorem head?_rstrip (l : Str) (a : Char) (h : (rstrip l).head? = some a) :
    l.head? = some a := by
  obtain ⟨t, ht⟩ := rstrip_append_eq l
  cases hr : rstrip l with
  | nil => rw [hr] at h; cases h
  | cons b m =>
    rw [hr] at h
    rw [← ht, hr]
    simpa using h

theorem rstrip_rstrip (l : Str) : rstrip (rstrip l) = rstrip l := by
  unfold rstrip
  rw [List.reverse_reverse, dropWhile_idem]

theorem head?_lstrip_false (l : Str) (a : Char) (h : (lstrip l).head? = some a) :
    pyIsSpace a = false :=
  head?_dropWhile_false pyIsSpace l a h

theorem lstrip_rstrip_lstrip (l : Str) :
    lstrip (rstrip (lstrip l)) = rstrip (lstrip l) := by
  apply dropWhile_eq_self_of_head
  intro a ha
  exact head?_lstrip_false l a (head?_rstrip _ a ha)

theorem pystrip_pystrip (l : Str) : pystrip (pystrip l) = pystrip l := by
  unfold pystrip
  rw [lstrip_rstrip_lstrip, rstrip_rstrip]

theorem pystrip_normalize_key (s : Str) :
    pystrip (normalize_key s) = normalize_key s := by
  unfold normalize_key
  exact pystrip_pystrip _

theorem rstrip_append_space (y : Str) (w : Char) (hw : pyIsSpace w = true) :
    rstrip (y ++ [w]) = rstrip y := by
  unfold rstrip
  rw [List.reverse_append]
  simp [List.dropWhile_cons, hw]

theorem pystrip_cons_space (w : Char) (u : Str) (hw : pyIsSpace w = true) :
    pystrip (w :: u) = pystrip u := by
  unfold pystrip lstrip
  rw [List.dropWhile_cons, if_pos hw]

theorem pystrip_append_space (u : Str) (w : Char) (hw : pyIsSpace w = true) :
    pystrip (u ++ [w]) = pystrip u := by
  unfold pystrip lstrip
  rw [List.dropWhile_append]
  by_cases h : (u.dropWhile pyIsSpace).isEmpty
  · rw [if_pos h]
    rw [List.isEmpty_iff] at h
    rw [h, List.dropWhile_cons, if_pos hw, List.dropWhile_nil]
  · rw [if_neg h]
    exact rstrip_append_space _ w hw

theorem mem_of_mem_rstrip (l : Str) (c : Char) (h : c ∈ rstrip l) : c ∈ l := by
  obtain ⟨t, ht⟩ := rstrip_append_eq l
  rw [← ht]
  exact List.mem_append_left _ h

theorem mem_of_mem_pystrip (l : Str) (c : Char) (h : c ∈ pystrip l) : c ∈ l := by
  unfold pystrip at h
  exact List.dropWhile_subset _ (mem_of_mem_rstrip _ c h)

/- ### Characterization of normalize_key output -/

theorem normalize_key_chars (s : Str) :
    ∀ c ∈ normalize_key s,
      lowerChar c = c ∧ c ≠ ' ' ∧ c ≠ '-' ∧ c ≠ '|' ∧ c ≠ '.' := by
  intro c hc
  unfold normalize_key replChars at hc
  have h1 := mem_of_mem_pystrip _ c hc
  rw [List.mem_filter] at h1
  obtain ⟨h2, hdot⟩ := h1
  rw [List.mem_filter] at h2
  obtain ⟨h3, hpipe⟩ := h2
  rw [List.mem_map] at h3
  obtain ⟨d, hd, hcd⟩ := h3
  rw [List.mem_map] at hd
  obtain ⟨e, he, hde⟩ := hd
  rw [List.mem_map] at he
  obtain ⟨f, _, hef⟩ := he
  simp only [decide_eq_true_eq] at hdot hpipe
  subst hef
  by_cases h1 : lowerChar f = ' '
  · rw [if_pos h1] at hde
    subst hde
    rw [if_neg (by decide : ¬ ('_' : Char) = '-')] at hcd
    subst hcd
    exact ⟨by decide, by decide, by decide, hpipe, hdot⟩
  · rw [if_neg h1] at hde
    subst hde
    by_cases h2 : lowerChar f = '-'
    · rw [if_pos h2] at hcd
      subst hcd
      exact ⟨by decide, by decide, by decide, hpipe, hdot⟩
    · rw [if_neg h2] at hcd
      subst hcd
      exact ⟨lowerChar_lowerChar f, h1, h2, hpipe, hdot⟩

theorem map_eq_self_of_fixed (f : Char → Char) (l : Str)
    (h : ∀ c ∈ l, f c = c) : l.map f = l := by
  induction l with
  | nil => rfl
  | cons a l ih =>
    rw [List.map_cons, h a (List.mem_cons_self a l), ih]
    intro c hc
    exact h c (List.mem_cons_of_mem a hc)

theorem filter_eq_self_of_all (p : Char → Bool) (l : Str)
    (h : ∀ c ∈ l, p c = true) : l.filter p = l := by
  induction l with
  | nil => rfl
  | cons a l ih =>
    rw [List.filter_cons, if_pos (h a (List.mem_cons_self a l)), ih]
    intro c hc
    exact h c (List.mem_cons_of_mem a hc)

theorem normalize_key_eq_self (l : Str)
    (h : ∀ c ∈ l, lowerChar c = c ∧ c ≠ ' ' ∧ c ≠ '-' ∧ c ≠ '|' ∧ c ≠ '.')
    (h2 : pystrip l = l) : normalize_key l = l := by
  unfold normalize_key replChars
  rw [map_eq_self_of_fixed lowerChar l (fun c hc => (h c hc).1)]
  rw [map_eq_self_of_fixed _ l (fun c hc => if_neg (h c hc).2.1)]
  rw [map_eq_self_of_fixed _ l (fun c hc => if_neg (h c hc).2.2.1)]
  rw [filter_eq_self_of_all _ l (fun c hc => decide_eq_true (h c hc).2.2.2.1)]
  rw [filter_eq_self_of_all _ l (fun c hc => decide_eq_true (h c hc).2.2.2.2)]
  exact h2

theorem replChars_cons_fixed (c : Char) (s : Str) (h1 : lowerChar c = c)
    (h2 : c ≠ ' ') (h3 : c ≠ '-') (h4 : c ≠ '|') (h5 : c ≠ '.') :
    replChars (c :: s) = c :: replChars s := by
  unfold replChars
  simp [h1, h2, h3, h4, h5]

theorem replChars_append_fixed (c : Char) (s : Str) (h1 : lowerChar c = c)
    (h2 : c ≠ ' ') (h3 : c ≠ '-') (h4 : c ≠ '|') (h5 : c ≠ '.') :
    replChars (s ++ [c]) = replChars s ++ [c] := by
  unfold replChars
  simp [h1, h2, h3, h4, h5]

/-- C3: key normalization is idempotent: for every string `s`,
    `normalize_key (normalize_key s) = normalize_key s`. -/
theorem normalize_key_idempotent (s : Str) :
    normalize_key (normalize_key s) = normalize_key s :=
  normalize_key_eq_self _ (normalize_key_chars s) (pystrip_normalize_key s)

/-- C2 counterexample: an input with a leading space does NOT yield the same
    key as the input without it.  `normalize_key` applies `.strip()` only
    after `" "` has been replaced by `"_"`, so `" a"` normalizes to `"_a"`,
    not to `"a"`. -/
theorem normalize_key_leading_space_ne :
    normalize_key (str " a") = str "_a" ∧
    normalize_key (str "a") = str "a" ∧
    normalize_key (str " a") ≠ normalize_key (str "a") := by
  decide

/-- The first character of a normalized key is never whitespace. -/
theorem head?_normalize_key_not_space (s : Str) (a : Char)
    (h : (normalize_key s).head? = some a) : pyIsSpace a = false := by
  unfold normalize_key pystrip at h
  exact head?_lstrip_false _ a (head?_rstrip _ a h)

/-- The last character of a normalized key is never whitespace. -/
theorem getLast?_normalize_key_not_space (s : Str) (a : Char)
    (h : (normalize_key s).getLast? = some a) : pyIsSpace a = false := by
  unfold normalize_key pystrip rstrip at h
  rw [List.getLast?_reverse] at h
  exact head?_dropWhile_false _ _ a h

/-- C2 (amended): `normalize_key` returns an identifier free of upper-case
    ASCII letters, spaces, hyphens, pipes and periods, whose first and last
    characters are never whitespace; surrounding whitespace OTHER than
    spaces (e.g. tabs, newlines) is trimmed, while leading/trailing spaces
    become underscores (they are replaced before `.strip()` runs). -/
theorem normalize_key_spec (s : Str) :
    (∀ c ∈ normalize_key s,
        lowerChar c = c ∧ c ≠ ' ' ∧ c ≠ '-' ∧ c ≠ '|' ∧ c ≠ '.') ∧
    (∀ a, (normalize_key s).head? = some a → pyIsSpace a = false) ∧
    (∀ a, (normalize_key s).getLast? = some a → pyIsSpace a = false) ∧
    normalize_key (('\t' :: s) ++ ['\n']) = normalize_key s := by
  refine ⟨normalize_key_chars s, fun a h => head?_normalize_key_not_space s a h,
    fun a h => getLast?_normalize_key_not_space s a h, ?_⟩
  unfold normalize_key
  rw [replChars_append_fixed _ _ (by decide) (by decide) (by decide) (by decide)
      (by decide)]
  rw [replChars_cons_fixed _ _ (by decide) (by decide) (by decide) (by decide)
      (by decide)]
  rw [List.cons_append, pystrip_cons_space _ _ (by decide),
    pystrip_append_space _ _ (by decide)]

/-- Witness for `normalize_key_spec` at the concrete input `"A b"`
    (which normalizes to `"a_b"`). -/
theorem normalize_key_spec_witness :
    (lowerChar 'a' = 'a' ∧ 'a' ≠ ' ' ∧ 'a' ≠ '-' ∧ 'a' ≠ '|' ∧ 'a' ≠ '.') ∧
    pyIsSpace 'a' = false ∧ pyIsSpace 'b' = false :=
  ⟨(normalize_key_spec (str "A b")).1 'a' (by decide),
   (normalize_key_spec (str "A b")).2.1 'a' (by decide),
   (normalize_key_spec (str "A b")).2.2.1 'b' (by decide)⟩

/- ### Data model: the nested document built by `generate_data_json` -/

/-- A playlist entry appended under a text (lines 152-164). -/
structure Playlist where
  name : Str
  playlist_id : Str
  description : Str
  video_count : Int
  latest_video_id : Option Str
deriving DecidableEq

/-- A text node: display name, description, ordered playlists (lines 145-150). -/
structure TextEntry where
  name : Str
  description : Str
  playlists : List Playlist
deriving DecidableEq

/-- A category node (`create_category_structure` plus name/description). -/
structure Category where
  name : Str
  description : Str
  texts : List (Str × TextEntry)
deriving DecidableEq

/-- A batch node (`create_batch_structure` plus `get_batch_info` metadata). -/
structure Batch where
  name : Str
  description : Str
  categories : List (Str × Category)
deriving DecidableEq

/-- The `data['batches']` mapping.  Python dicts preserve insertion order, so
    they are modelled as association lists with unique keys. -/
abbrev Batches := List (Str × Batch)

/-- First-match association-list lookup, modelling Python dict indexing. -/
def alookup {α : Type} (k : Str) : List (Str × α) → Option α
  | [] => none
  | (k', v) :: rest => if k' = k then some v else alookup k rest

/-- Python `key in dict`. -/
def hasKey {α : Type} (k : Str) (l : List (Str × α)) : Bool :=
  (alookup k l).isSome

/-- Python `d[k] = v` for a fresh key: insertion order puts it last. -/
def insertNew {α : Type} (k : Str) (v : α) (l : List (Str × α)) :
    List (Str × α) :=
  l ++ [(k, v)]

/-- In-place mutation of the value stored at key `k`. -/
def updateAt {α : Type} (k : Str) (f : α → α) (l : List (Str × α)) :
    List (Str × α) :=
  l.map (fun p => if p.1 = k then (p.1, f p.2) else p)

/-- The `if key not in d: d[key] = v` pattern (lazy create-if-absent). -/
def getOrCreate {α : Type} (k : Str) (v : α) (l : List (Str × α)) :
    List (Str × α) :=
  if hasKey k l then l else insertNew k v l

/-- `get_batch_info` (lines 27-47): curated metadata for the four known batch
    names; unknown names fall back to the raw name with empty description. -/
def get_batch_info (batch_name : Str) : Str × Str :=
  if batch_name = str "Dhanyosi" then
    (str "Dhanyosi Batch", str "2021-2025")
  else if batch_name = str "Tattvamasi" then
    (str "Tattvamasi Batch", str "Coimbatore Batch")
  else if batch_name = str "Jignasu" then
    (str "Jignasu Batch", str "2024-2028")
  else if batch_name = str "Miscellaneous" then
    (str "Miscellaneous", str "Special programs and general spiritual content")
  else (batch_name, [])

/-- `get_category_info` (lines 49-73): curated metadata for the five known
    category names; unknown names fall back to raw name, empty description. -/
def get_category_info (category_name : Str) : Str × Str :=
  if category_name = str "Upanishad" then
    (str "Upanishads", str "Ancient wisdom texts - the culmination of Vedic knowledge")
  else if category_name = str "Bhagawad Gita" then
    (str "Bhagavad Gita", str "The song of the Lord - practical spirituality")
  else if category_name = str "Prakaranam" then
    (str "Prakaranam", str "Introductory and foundational texts")
  else if category_name = str "Brahmasutram" then
    (str "Brahmasutram", str "The aphorisms of Brahman - systematic philosophy")
  else if category_name = str "Satsang" then
    (str "Satsang", str "Question and answer sessions, discussions")
  else (category_name, [])

/- ### Row parsing (lines 97-104) -/

/-- One raw CSV row, with the seven required columns. -/
structure RawRow where
  batch : Str
  category : Str
  text : Str
  video_count : Str
  playlist : Str
  is_ongoing : Str
  latest_link : Str
deriving DecidableEq

/-- A parsed row. -/
structure Row where
  batch_name : Str
  category_name : Str
  text_name : Str
  video_count : Int
  playlist_id : Str
  is_ongoing : Bool
  latest_link : Option Str
deriving DecidableEq

/-- Decimal value of a digit string. -/
def digitsVal (l : Str) : Nat :=
  l.foldl (fun a c => a * 10 + (c.toNat - 48)) 0

/-- Nonempty all-digit check plus value: the core of `int(...)` parsing. -/
def parseDigits (l : Str) : Option Nat :=
  if l ≠ [] ∧ l.all Char.isDigit then some (digitsVal l) else none

/-- Sign-and-digits analysis of an already-stripped string: the accepted
    shapes of Python `int(...)` on base-10 input. -/
def pyIntOfStripped : Str → Option Int
  | [] => none
  | c :: ds =>
    if c = '+' then (parseDigits ds).map Int.ofNat
    else if c = '-' then (parseDigits ds).map (fun n => -(Int.ofNat n))
    else (parseDigits (c :: ds)).map Int.ofNat

/-- Model of Python `int(s)` on a base-10 string: optional sign followed by
    digits, surrounding whitespace ignored; `none` models `ValueError`.
    (CPython's underscore digit grouping is not modelled.) -/
def pyInt (s : Str) : Option Int :=
  pyIntOfStripped (pystrip s)

/-- Line 101: `int(row['Video Count'].strip()) if row['Video Count'].strip()
    else 0`. -/
def videoCountOf (r : RawRow) : Option Int :=
  if pystrip r.video_count = [] then some 0 else pyInt (pystrip r.video_count)

/-- Parse one CSV row (lines 98-104); `none` models the uncaught `ValueError`
    from a non-numeric video count.  No other field can fail. -/
def parseRow (r : RawRow) : Option Row :=
  match videoCountOf r with
  | none => none
  | some n => some {
      batch_name := pystrip r.batch
      category_name := pystrip r.category
      text_name := pystrip r.text
      video_count := n
      playlist_id := pystrip r.playlist
      is_ongoing := decide ((pystrip r.is_ongoing).map lowerChar = str "yes")
      latest_link := if pystrip r.latest_link = [] then none
                     else some (pystrip r.latest_link) }

/- ### The aggregation loop (lines 106-164) -/

/-- Add the row's playlist entry under one target category (lines 134-164):
    lazily create the category and text nodes, then append the entry; the
    latest-video id is attached only on the `"ongoing"` branch. -/
def addToCategory (batch_key : Str) (r : Row) (ci : Str × Str × Str)
    (bs : Batches) : Batches :=
  let category_key := ci.1
  updateAt batch_key (fun b =>
    let cats := getOrCreate category_key
      { name := ci.2.1, description := ci.2.2, texts := [] } b.categories
    let text_key := normalize_key r.text_name
    let cats := updateAt category_key (fun c =>
      let texts := getOrCreate text_key
        { name := r.text_name, description := r.text_name ++ str " study",
          playlists := [] } c.texts
      let entry : Playlist :=
        { name := r.text_name, playlist_id := r.playlist_id,
          description := r.text_name ++ str " study",
          video_count := r.video_count,
          latest_video_id :=
            if r.is_ongoing ∧ r.latest_link.isSome ∧ category_key = str "ongoing"
            then r.latest_link else none }
      let texts := updateAt text_key
        (fun t => { t with playlists := t.playlists ++ [entry] }) texts
      { c with texts := texts }) cats
    { b with categories := cats }) bs

/-- Process one parsed row (lines 106-164): create the batch on first
    encounter, then fan out over the target categories (the natural one,
    plus `"ongoing"` when the ongoing flag is set). -/
def processRow (bs : Batches) (r : Row) : Batches :=
  let batch_key := normalize_key r.batch_name
  let bs :=
    if hasKey batch_key bs then bs
    else
      let info := get_batch_info r.batch_name
      insertNew batch_key
        { name := info.1, description := info.2, categories := [] } bs
  let natural_info := get_category_info r.category_name
  let categories_to_add :=
    (normalize_key r.category_name, natural_info.1, natural_info.2) ::
      (if r.is_ongoing
       then [(str "ongoing", str "Ongoing",
              str "Current studies across different texts")]
       else [])
  categories_to_add.foldl (fun acc ci => addToCategory batch_key r ci acc) bs

/- ### Document assembly (lines 79-193) -/

structure SiteInfo where
  title : Str
  description : Str
  last_updated : Str
deriving DecidableEq

structure Metadata where
  total_batches : Nat
  total_categories : Nat
  total_texts : Nat
  total_playlists : Nat
  youtube_api_version : Str
  cache_duration : Nat
  update_frequency : Str
deriving DecidableEq

structure Document where
  site_info : SiteInfo
  batches : Batches
  metadata : Metadata
deriving DecidableEq

/-- Lines 166-189: aggregate counts computed from the built structure. -/
def computeMetadata (bs : Batches) : Metadata :=
  { total_batches := bs.length
    total_categories := (bs.map (fun b => b.2.categories.length)).sum
    total_texts := (bs.map (fun b =>
      (b.2.categories.map (fun c => c.2.texts.length)).sum)).sum
    total_playlists := (bs.map (fun b =>
      (b.2.categories.map (fun c =>
        (c.2.texts.map (fun t => t.2.playlists.length)).sum)).sum)).sum
    youtube_api_version := str "v3"
    cache_duration := 3600
    update_frequency := str "daily" }

/-- The CSV loop (lines 97-164): parse and fold rows in order; a parse
    failure aborts the whole run. -/
def runRows (bs : Batches) : List RawRow → Option Batches
  | [] => some bs
  | raw :: rest =>
    match parseRow raw with
    | none => none
    | some row => runRows (processRow bs row) rest

/-- `generate_data_json` minus the file I/O: from today's date string and the
    CSV rows to the output document (`none` = abort with an uncaught error). -/
def generate_data_json (today : Str) (input : List RawRow) : Option Document :=
  match runRows [] input with
  | none => none
  | some bs => some {
      site_info := { title := str "Brahma Vidya Mandir",
                     description := str "Learning Portal",
                     last_updated := today }
      batches := bs
      metadata := computeMetadata bs }

/- ### Claim C4: video-count parsing -/

/-- Decimal digit string of a natural number, written with explicit fuel so
    that it reduces inside the kernel (`fuel > n` suffices). -/
def natDigitsAux : Nat → Nat → Str
  | 0, _ => []
  | fuel + 1, n =>
    if n < 10 then [Nat.digitChar n]
    else natDigitsAux fuel (n / 10) ++ [Nat.digitChar (n % 10)]

/-- Canonical decimal string of a natural number, for stating that numeric
    fields parse back to their value. -/
def natToStr (n : Nat) : Str := natDigitsAux (n + 1) n

theorem digitChar_isDigit (d : Nat) (h : d < 10) :
    (Nat.digitChar d).isDigit = true := by
  interval_cases d <;> decide

theorem toNat_digitChar (d : Nat) (h : d < 10) :
    (Nat.digitChar d).toNat - 48 = d := by
  interval_cases d <;> decide

theorem digitsVal_append_digit (l : Str) (c : Char) :
    digitsVal (l ++ [c]) = digitsVal l * 10 + (c.toNat - 48) := by
  unfold digitsVal
  rw [List.foldl_append]
  rfl

theorem natDigitsAux_spec (fuel : Nat) : ∀ n, n < fuel →
    digitsVal (natDigitsAux fuel n) = n ∧ natDigitsAux fuel n ≠ [] ∧
    (natDigitsAux fuel n).all Char.isDigit = true := by
  induction fuel with
  | zero => intro n h; omega
  | succ fuel ih =>
    intro n h
    have heq : natDigitsAux (fuel + 1) n =
        (if n < 10 then [Nat.digitChar n]
         else natDigitsAux fuel (n / 10) ++ [Nat.digitChar (n % 10)]) := rfl
    rw [heq]
    by_cases h10 : n < 10
    · rw [if_pos h10]
      refine ⟨?_, List.cons_ne_nil _ _, by simp [digitChar_isDigit n h10]⟩
      show digitsVal ([] ++ [Nat.digitChar n]) = n
      rw [digitsVal_append_digit]
      show 0 * 10 + ((Nat.digitChar n).toNat - 48) = n
      rw [Nat.zero_mul, Nat.zero_add]
      exact toNat_digitChar n h10
    · rw [if_neg h10]
      have hdiv : n / 10 < n := Nat.div_lt_self (by omega) (by omega)
      obtain ⟨ihv, _, ihall⟩ := ih (n / 10) (by omega)
      refine ⟨?_, List.append_ne_nil_of_right_ne_nil _ (List.cons_ne_nil _ _), ?_⟩
      · rw [digitsVal_append_digit, ihv,
          toNat_digitChar _ (Nat.mod_lt _ (by omega))]
        omega
      · rw [List.all_append, ihall]
        simp [digitChar_isDigit _ (Nat.mod_lt _ (by omega))]

theorem digitsVal_natToStr (n : Nat) : digitsVal (natToStr n) = n :=
  (natDigitsAux_spec (n + 1) n (by omega)).1

theorem natToStr_ne_nil (n : Nat) : natToStr n ≠ [] :=
  (natDigitsAux_spec (n + 1) n (by omega)).2.1

theorem natToStr_all_digits (n : Nat) : (natToStr n).all Char.isDigit = true :=
  (natDigitsAux_spec (n + 1) n (by omega)).2.2

theorem pyIsSpace_false_of_isDigit (c : Char) (h : c.isDigit = true) :
    pyIsSpace c = false := by
  cases hc : pyIsSpace c
  · rfl
  · exfalso
    unfold pyIsSpace at hc
    simp only [Bool.or_eq_true, decide_eq_true_eq] at hc
    obtain ((((h1 | h1) | h1) | h1) | h1) | h1 := hc <;> subst h1 <;>
      exact absurd h (by decide)

theorem pystrip_eq_self_of_no_space (l : Str)
    (h : ∀ c ∈ l, pyIsSpace c = false) : pystrip l = l := by
  unfold pystrip lstrip rstrip
  rw [dropWhile_eq_self_of_head _ _
    (fun a ha => h a (List.mem_of_mem_head? (Option.mem_def.mpr ha)))]
  rw [dropWhile_eq_self_of_head _ _
    (fun a ha => h a (List.mem_reverse.mp
      (List.mem_of_mem_head? (Option.mem_def.mpr ha))))]
  exact List.reverse_reverse l

theorem pystrip_natToStr (n : Nat) : pystrip (natToStr n) = natToStr n := by
  apply pystrip_eq_self_of_no_space
  intro c hc
  have hall := natToStr_all_digits n
  rw [List.all_eq_true] at hall
  exact pyIsSpace_false_of_isDigit c (hall c hc)

theorem parseDigits_eq_none_iff (l : Str) :
    parseDigits l = none ↔ ¬ (l ≠ [] ∧ l.all Char.isDigit = true) := by
  unfold parseDigits
  by_cases h : l ≠ [] ∧ l.all Char.isDigit = true
  · rw [if_pos h]
    exact iff_of_false (Option.some_ne_none _) (not_not_intro h)
  · rw [if_neg h]
    exact iff_of_true rfl h

theorem parseDigits_eq_some_cond (l : Str) (n : Nat)
    (h : parseDigits l = some n) : l ≠ [] ∧ l.all Char.isDigit = true := by
  by_contra hcon
  unfold parseDigits at h
  rw [if_neg hcon] at h
  cases h

theorem videoCountOf_digits (r : RawRow) (l : Str)
    (hl : pystrip r.video_count = l) (hne : l ≠ [])
    (hall : l.all Char.isDigit = true) :
    videoCountOf r = some (Int.ofNat (digitsVal l)) := by
  have hself : pystrip l = l := by
    rw [← hl, pystrip_pystrip]
  unfold videoCountOf
  rw [hl, if_neg hne]
  unfold pyInt
  rw [hself]
  cases l with
  | nil => exact absurd rfl hne
  | cons c ds =>
    rw [List.all_cons, Bool.and_eq_true] at hall
    have hplus : c ≠ '+' := by
      intro hc
      rw [hc] at hall
      exact absurd hall.1 (by decide)
    have hminus : c ≠ '-' := by
      intro hc
      rw [hc] at hall
      exact absurd hall.1 (by decide)
    simp only [pyIntOfStripped]
    rw [if_neg hplus, if_neg hminus]
    unfold parseDigits
    rw [if_pos ⟨List.cons_ne_nil c ds,
      by rw [List.all_cons, Bool.and_eq_true]; exact hall⟩]
    rfl

theorem videoCount_core_none_iff (l : Str) (hself : pystrip l = l) :
    (if l = [] then some 0 else pyIntOfStripped (pystrip l)) = none ↔
      l ≠ [] ∧
      ¬ (l.all Char.isDigit = true ∨
         ((l.head? = some '+' ∨ l.head? = some '-') ∧
          l.tail ≠ [] ∧ l.tail.all Char.isDigit = true)) := by
  rw [hself]
  cases l with
  | nil =>
    rw [if_pos rfl]
    exact iff_of_false (Option.some_ne_none _) (fun h => h.1 rfl)
  | cons c ds =>
    rw [if_neg (List.cons_ne_nil c ds)]
    simp only [pyIntOfStripped]
    by_cases hc1 : c = '+'
    · subst hc1
      rw [if_pos rfl]
      cases hpd : parseDigits ds with
      | none =>
        rw [Option.map_none']
        rw [parseDigits_eq_none_iff] at hpd
        refine iff_of_true rfl ⟨List.cons_ne_nil _ _, ?_⟩
        intro hor
        rcases hor with hall | ⟨_, hne, hall⟩
        · rw [List.all_cons, Bool.and_eq_true] at hall
          exact absurd hall.1 (by decide)
        · exact hpd ⟨hne, hall⟩
      | some n =>
        rw [Option.map_some']
        have hcond := parseDigits_eq_some_cond ds n hpd
        exact iff_of_false (Option.some_ne_none _)
          (fun h => h.2 (Or.inr ⟨Or.inl rfl, hcond⟩))
    · rw [if_neg hc1]
      by_cases hc2 : c = '-'
      · subst hc2
        rw [if_pos rfl]
        cases hpd : parseDigits ds with
        | none =>
          rw [Option.map_none']
          rw [parseDigits_eq_none_iff] at hpd
          refine iff_of_true rfl ⟨List.cons_ne_nil _ _, ?_⟩
          intro hor
          rcases hor with hall | ⟨_, hne, hall⟩
          · rw [List.all_cons, Bool.and_eq_true] at hall
            exact absurd hall.1 (by decide)
          · exact hpd ⟨hne, hall⟩
        | some n =>
          rw [Option.map_some']
          have hcond := parseDigits_eq_some_cond ds n hpd
          exact iff_of_false (Option.some_ne_none _)
            (fun h => h.2 (Or.inr ⟨Or.inr rfl, hcond⟩))
      · rw [if_neg hc2]
        cases hpd : parseDigits (c :: ds) with
        | none =>
          rw [Option.map_none']
          rw [parseDigits_eq_none_iff] at hpd
          refine iff_of_true rfl ⟨List.cons_ne_nil _ _, ?_⟩
          intro hor
          rcases hor with hall | ⟨hsign, _, _⟩
          · exact hpd ⟨List.cons_ne_nil _ _, hall⟩
          · rcases hsign with hs | hs
            · exact hc1 (Option.some.inj hs)
            · exact hc2 (Option.some.inj hs)
        | some n =>
          rw [Option.map_some']
          have hcond := parseDigits_eq_some_cond _ n hpd
          exact iff_of_false (Option.some_ne_none _)
            (fun h => h.2 (Or.inl hcond.2))

theorem videoCountOf_none_iff (r : RawRow) :
    videoCountOf r = none ↔
      pystrip r.video_count ≠ [] ∧
      ¬ ((pystrip r.video_count).all Char.isDigit = true ∨
         (((pystrip r.video_count).head? = some '+' ∨
           (pystrip r.video_count).head? = some '-') ∧
          (pystrip r.video_count).tail ≠ [] ∧
          (pystrip r.video_count).tail.all Char.isDigit = true)) := by
  unfold videoCountOf pyInt
  exact videoCount_core_none_iff (pystrip r.video_count) (pystrip_pystrip _)

/-- C4: the Video Count field parses to 0 when empty or whitespace-only,
    parses to its integer value when numeric (here: a digit string, and in
    particular the decimal representation of any natural number), fails
    exactly on stripped input that is non-empty and not of the form
    optional-sign-then-digits, and a row's parse can fail only through the
    video-count field (no other field value raises). -/
theorem video_count_parsing (r : RawRow) :
    (pystrip r.video_count = [] → videoCountOf r = some 0) ∧
    (∀ l, pystrip r.video_count = l → l ≠ [] → l.all Char.isDigit = true →
        videoCountOf r = some (Int.ofNat (digitsVal l))) ∧
    (∀ n : Nat, videoCountOf { r with video_count := natToStr n } =
        some (Int.ofNat n)) ∧
    (videoCountOf r = none ↔
      pystrip r.video_count ≠ [] ∧
      ¬ ((pystrip r.video_count).all Char.isDigit = true ∨
         (((pystrip r.video_count).head? = some '+' ∨
           (pystrip r.video_count).head? = some '-') ∧
          (pystrip r.video_count).tail ≠ [] ∧
          (pystrip r.video_count).tail.all Char.isDigit = true))) ∧
    (parseRow r = none ↔ videoCountOf r = none) := by
  refine ⟨?_, ?_, ?_, videoCountOf_none_iff r, ?_⟩
  · intro h
    unfold videoCountOf
    rw [if_pos h]
  · intro l hl hne hall
    exact videoCountOf_digits r l hl hne hall
  · intro n
    have h := videoCountOf_digits { r with video_count := natToStr n }
      (natToStr n) (pystrip_natToStr n) (natToStr_ne_nil n) (natToStr_all_digits n)
    rw [digitsVal_natToStr] at h
    exact h
  · unfold parseRow
    cases h : videoCountOf r
    · exact iff_of_true rfl rfl
    · exact iff_of_false (by simp) (by simp)

/-- Witness for `video_count_parsing`: a whitespace-only Video Count parses
    to 0, and the field `"42"` parses to its value.  (Fields of a `RawRow`
    are batch, category, text, video count, playlist, ongoing, latest link.) -/
theorem video_count_parsing_witness :
    videoCountOf ⟨[], [], [], str "  ", [], [], []⟩ = some 0 ∧
    videoCountOf ⟨[], [], [], str "42", [], [], []⟩ =
      some (Int.ofNat (digitsVal (str "42"))) :=
  ⟨(video_count_parsing _).1 (by decide),
   (video_count_parsing _).2.1 (str "42") (by decide) (by decide) (by decide)⟩

/- ### Association-list lemmas -/

theorem alookup_cons {α : Type} (k k' : Str) (v : α) (rest : List (Str × α)) :
    alookup k ((k', v) :: rest) = if k' = k then some v else alookup k rest :=
  rfl

theorem alookup_append_left {α : Type} (k : Str) (l l2 : List (Str × α))
    (h : hasKey k l = true) : alookup k (l ++ l2) = alookup k l := by
  induction l with
  | nil => exact absurd h (by simp [hasKey, alookup])
  | cons p l ih =>
    obtain ⟨k', v⟩ := p
    rw [List.cons_append, alookup_cons, alookup_cons]
    by_cases hk : k' = k
    · rw [if_pos hk, if_pos hk]
    · rw [if_neg hk, if_neg hk]
      apply ih
      unfold hasKey at h
      rw [alookup_cons, if_neg hk] at h
      exact h

theorem alookup_append_right {α : Type} (k : Str) (l l2 : List (Str × α))
    (h : hasKey k l = false) : alookup k (l ++ l2) = alookup k l2 := by
  induction l with
  | nil => rfl
  | cons p l ih =>
    obtain ⟨k', v⟩ := p
    rw [List.cons_append, alookup_cons]
    unfold hasKey at h
    rw [alookup_cons] at h
    by_cases hk : k' = k
    · rw [if_pos hk] at h
      cases h
    · rw [if_neg hk] at h ⊢
      exact ih h

theorem alookup_getOrCreate_mem {α : Type} (k k' : Str) (v x : α)
    (l : List (Str × α)) (h : alookup k' l = some x) :
    alookup k' (getOrCreate k v l) = some x := by
  unfold getOrCreate
  by_cases hk : hasKey k l = true
  · rw [if_pos hk]
    exact h
  · rw [if_neg hk]
    unfold insertNew
    rw [alookup_append_left k' l _ (by unfold hasKey; rw [h]; rfl)]
    exact h

theorem alookup_updateAt_self {α : Type} (k : Str) (f : α → α)
    (l : List (Str × α)) :
    alookup k (updateAt k f l) = (alookup k l).map f := by
  induction l with
  | nil => rfl
  | cons p l ih =>
    obtain ⟨k', v⟩ := p
    simp only [updateAt, List.map_cons]
    by_cases hk : k' = k
    · simp only [hk, eq_self_iff_true, if_true, alookup_cons, Option.map_some']
    · simp only [if_neg hk, alookup_cons, if_neg hk]
      exact ih

theorem alookup_updateAt_ne {α : Type} (k k' : Str) (f : α → α)
    (l : List (Str × α)) (h : k' ≠ k) :
    alookup k (updateAt k' f l) = alookup k l := by
  induction l with
  | nil => rfl
  | cons p l ih =>
    obtain ⟨k'', v⟩ := p
    simp only [updateAt, List.map_cons]
    by_cases hk : k'' = k'
    · subst hk
      simp only [eq_self_iff_true, if_true, alookup_cons, if_neg h]
      exact ih
    · simp only [if_neg hk, alookup_cons]
      by_cases hk2 : k'' = k
      · rw [if_pos hk2, if_pos hk2]
      · rw [if_neg hk2, if_neg hk2]
        exact ih

/- ### Flattening the nested structure -/

/-- Concatenation of the images of a list, used to enumerate the nested
    document. -/
def concatMap {α β : Type} (f : α → List β) : List α → List β
  | [] => []
  | a :: l => f a ++ concatMap f l

/-- All playlist entries of the structure, tagged with their batch key,
    category key and text key, in document order. -/
def entriesOf (bs : Batches) : List (Str × Str × Str × Playlist) :=
  concatMap (fun b =>
    concatMap (fun c =>
      concatMap (fun t =>
        t.2.playlists.map (fun e => (b.1, c.1, t.1, e)))
        c.2.texts)
      b.2.categories)
    bs

/- ### Claim C1: fan-out of a row over its target categories -/

/-- C1 (amended): provided the row's natural category key is not itself
    `"ongoing"`, a non-ongoing row contributes exactly one playlist entry,
    in its natural category, never carrying a latest-video id; an ongoing
    row contributes exactly two entries — natural category and `"ongoing"` —
    and only the `"ongoing"` copy carries the latest-video id (when
    supplied).  (When the natural category key IS `"ongoing"`, both copies
    land in that single category and both carry the id; see the
    counterexample.) -/
theorem row_fanout (r : Row)
    (h : normalize_key r.category_name ≠ str "ongoing") :
    (r.is_ongoing = false →
      entriesOf (processRow [] r) =
        [(normalize_key r.batch_name, normalize_key r.category_name,
          normalize_key r.text_name,
          ⟨r.text_name, r.playlist_id, r.text_name ++ str " study",
           r.video_count, none⟩)]) ∧
    (r.is_ongoing = true →
      entriesOf (processRow [] r) =
        [(normalize_key r.batch_name, normalize_key r.category_name,
          normalize_key r.text_name,
          ⟨r.text_name, r.playlist_id, r.text_name ++ str " study",
           r.video_count, none⟩),
         (normalize_key r.batch_name, str "ongoing",
          normalize_key r.text_name,
          ⟨r.text_name, r.playlist_id, r.text_name ++ str " study",
           r.video_count, r.latest_link⟩)]) := by
  constructor
  · intro hng
    simp [processRow, addToCategory, getOrCreate, hasKey, alookup, insertNew,
      updateAt, entriesOf, concatMap, hng, h]
  · intro hng
    cases hl : r.latest_link with
    | none =>
      simp [processRow, addToCategory, getOrCreate, hasKey, alookup, insertNew,
        updateAt, entriesOf, concatMap, hng, h, hl]
    | some v =>
      simp [processRow, addToCategory, getOrCreate, hasKey, alookup, insertNew,
        updateAt, entriesOf, concatMap, hng, h, hl]

/-- Witness for `row_fanout` at the spec's worked example row
    `Tattvamasi / Upanishad / Katha Upanishad, ongoing, latest link VID99`. -/
theorem row_fanout_witness :
    normalize_key (str "Upanishad") ≠ str "ongoing" ∧
    entriesOf (processRow []
      ⟨str "Tattvamasi", str "Upanishad", str "Katha Upanishad", 12,
       str "PL123", true, some (str "VID99")⟩) =
      [(normalize_key (str "Tattvamasi"), normalize_key (str "Upanishad"),
        normalize_key (str "Katha Upanishad"),
        ⟨str "Katha Upanishad", str "PL123",
         str "Katha Upanishad" ++ str " study", 12, none⟩),
       (normalize_key (str "Tattvamasi"), str "ongoing",
        normalize_key (str "Katha Upanishad"),
        ⟨str "Katha Upanishad", str "PL123",
         str "Katha Upanishad" ++ str " study", 12, some (str "VID99")⟩)] :=
  ⟨by decide,
   (row_fanout
      ⟨str "Tattvamasi", str "Upanishad", str "Katha Upanishad", 12,
       str "PL123", true, some (str "VID99")⟩ (by decide)).2 rfl⟩

/-- C1 counterexample: for a row whose natural category is `Ongoing`
    (normalizing to the key `"ongoing"`) with the ongoing flag set and a
    latest link supplied, both copies of the playlist entry land in the
    SAME single category, and the natural-category copy (the first one)
    carries the latest-video identifier — contradicting both "appears in
    exactly two places: the natural category and the ongoing category" and
    "the natural-category copy never carries it". -/
theorem ongoing_category_row_both_carry_latest :
    entriesOf (processRow []
      ⟨str "Tattvamasi", str "Ongoing", str "Katha Upanishad", 12,
       str "PL123", true, some (str "VID99")⟩) =
      [(str "tattvamasi", str "ongoing", str "katha_upanishad",
        ⟨str "Katha Upanishad", str "PL123", str "Katha Upanishad study", 12,
         some (str "VID99")⟩),
       (str "tattvamasi", str "ongoing", str "katha_upanishad",
        ⟨str "Katha Upanishad", str "PL123", str "Katha Upanishad study", 12,
         some (str "VID99")⟩)] := by
  decide

/- ### Claim C7: duplicate rows are both kept -/

/-- The playlist list stored at (batch key, category key, text key), when the
    path exists. -/
def playlistsAt (bs : Batches) (bk ck tk : Str) : Option (List Playlist) :=
  (alookup bk bs).bind (fun b =>
    (alookup ck b.categories).bind (fun c =>
      (alookup tk c.texts).map (fun t => t.playlists)))

/-- C7: playlist entries are never deduplicated and insertion order is
    preserved: processing the same row twice yields a text whose playlist
    list holds two equal entries, appended in processing order (in each of
    the row's target categories). -/
theorem duplicate_row_yields_two_entries (r : Row) :
    (r.is_ongoing = false →
      playlistsAt (processRow (processRow [] r) r)
        (normalize_key r.batch_name) (normalize_key r.category_name)
        (normalize_key r.text_name) =
      some [⟨r.text_name, r.playlist_id, r.text_name ++ str " study",
             r.video_count, none⟩,
            ⟨r.text_name, r.playlist_id, r.text_name ++ str " study",
             r.video_count, none⟩]) ∧
    (r.is_ongoing = true → normalize_key r.category_name ≠ str "ongoing" →
      playlistsAt (processRow (processRow [] r) r)
        (normalize_key r.batch_name) (normalize_key r.category_name)
        (normalize_key r.text_name) =
      some [⟨r.text_name, r.playlist_id, r.text_name ++ str " study",
             r.video_count, none⟩,
            ⟨r.text_name, r.playlist_id, r.text_name ++ str " study",
             r.video_count, none⟩] ∧
      playlistsAt (processRow (processRow [] r) r)
        (normalize_key r.batch_name) (str "ongoing")
        (normalize_key r.text_name) =
      some [⟨r.text_name, r.playlist_id, r.text_name ++ str " study",
             r.video_count, r.latest_link⟩,
            ⟨r.text_name, r.playlist_id, r.text_name ++ str " study",
             r.video_count, r.latest_link⟩]) := by
  constructor
  · intro hng
    simp [processRow, addToCategory, getOrCreate, hasKey, alookup, insertNew,
      updateAt, playlistsAt, hng]
  · intro hng h
    cases hl : r.latest_link with
    | none =>
      constructor <;>
        simp [processRow, addToCategory, getOrCreate, hasKey, alookup,
          insertNew, updateAt, playlistsAt, hng, h, Ne.symm h, hl]
    | some v =>
      constructor <;>
        simp [processRow, addToCategory, getOrCreate, hasKey, alookup,
          insertNew, updateAt, playlistsAt, hng, h, Ne.symm h, hl]

/-- Witness for `duplicate_row_yields_two_entries` at a concrete
    non-ongoing row. -/
theorem duplicate_row_yields_two_entries_witness :
    playlistsAt (processRow (processRow []
        ⟨str "Jignasu", str "Satsang", str "QA Session", 3,
         str "PL777", false, none⟩)
      ⟨str "Jignasu", str "Satsang", str "QA Session", 3,
       str "PL777", false, none⟩)
      (normalize_key (str "Jignasu")) (normalize_key (str "Satsang"))
      (normalize_key (str "QA Session")) =
    some [⟨str "QA Session", str "PL777",
           str "QA Session" ++ str " study", 3, none⟩,
          ⟨str "QA Session", str "PL777",
           str "QA Session" ++ str " study", 3, none⟩] :=
  (duplicate_row_yields_two_entries
    ⟨str "Jignasu", str "Satsang", str "QA Session", 3,
     str "PL777", false, none⟩).1 rfl

/- ### Node preservation: existing nodes are reused, not overwritten -/

/-- The keys of an association list, in insertion order. -/
def keysOf {α : Type} (l : List (Str × α)) : List Str := l.map Prod.fst

theorem keysOf_updateAt {α : Type} (k : Str) (f : α → α)
    (l : List (Str × α)) : keysOf (updateAt k f l) = keysOf l := by
  unfold keysOf updateAt
  rw [List.map_map]
  apply List.map_congr_left
  intro p _
  by_cases h : p.1 = k
  · simp [h]
  · simp [h]

theorem keysOf_addToCategory (bs : Batches) (bk : Str) (r : Row)
    (ci : Str × Str × Str) : keysOf (addToCategory bk r ci bs) = keysOf bs := by
  unfold addToCategory
  exact keysOf_updateAt bk _ bs

theorem hasKey_of_alookup_some {α : Type} (k : Str) (l : List (Str × α))
    (x : α) (h : alookup k l = some x) : hasKey k l = true := by
  unfold hasKey
  rw [h]
  rfl

/-- All name/description fields of batch, category and text nodes present in
    `bs1` are unchanged in `bs2` (and the nodes are still present). -/
def PreservesFields (bs1 bs2 : Batches) : Prop :=
  ∀ k b, alookup k bs1 = some b →
    ∃ b', alookup k bs2 = some b' ∧
      b'.name = b.name ∧ b'.description = b.description ∧
      ∀ ck c, alookup ck b.categories = some c →
        ∃ c', alookup ck b'.categories = some c' ∧
          c'.name = c.name ∧ c'.description = c.description ∧
          ∀ tk t, alookup tk c.texts = some t →
            ∃ t', alookup tk c'.texts = some t' ∧
              t'.name = t.name ∧ t'.description = t.description

theorem preservesFields_refl (bs : Batches) : PreservesFields bs bs := by
  intro k b hb
  refine ⟨b, hb, rfl, rfl, ?_⟩
  intro ck c hc
  refine ⟨c, hc, rfl, rfl, ?_⟩
  intro tk t ht
  exact ⟨t, ht, rfl, rfl⟩

theorem preservesFields_trans (bs1 bs2 bs3 : Batches)
    (h12 : PreservesFields bs1 bs2) (h23 : PreservesFields bs2 bs3) :
    PreservesFields bs1 bs3 := by
  intro k b hb
  obtain ⟨b2, hb2, hn2, hd2, hcat2⟩ := h12 k b hb
  obtain ⟨b3, hb3, hn3, hd3, hcat3⟩ := h23 k b2 hb2
  refine ⟨b3, hb3, hn3.trans hn2, hd3.trans hd2, ?_⟩
  intro ck c hc
  obtain ⟨c2, hc2, hcn2, hcd2, htx2⟩ := hcat2 ck c hc
  obtain ⟨c3, hc3, hcn3, hcd3, htx3⟩ := hcat3 ck c2 hc2
  refine ⟨c3, hc3, hcn3.trans hcn2, hcd3.trans hcd2, ?_⟩
  intro tk t ht
  obtain ⟨t2, ht2, htn2, htd2⟩ := htx2 tk t ht
  obtain ⟨t3, ht3, htn3, htd3⟩ := htx3 tk t2 ht2
  exact ⟨t3, ht3, htn3.trans htn2, htd3.trans htd2⟩

theorem preservesFields_insertNew (bs : Batches) (k : Str) (v : Batch) :
    PreservesFields bs (insertNew k v bs) := by
  intro k' b hb
  unfold insertNew
  rw [alookup_append_left k' bs _ (hasKey_of_alookup_some k' bs b hb)]
  exact preservesFields_refl bs k' b hb

theorem addToCategory_preservesFields (bs : Batches) (bk : Str) (r : Row)
    (ci : Str × Str × Str) :
    PreservesFields bs (addToCategory bk r ci bs) := by
  intro k b hb
  unfold addToCategory
  by_cases hk : bk = k
  · subst hk
    rw [alookup_updateAt_self, hb, Option.map_some']
    refine ⟨_, rfl, rfl, rfl, ?_⟩
    intro ck c hc
    have hc1 := alookup_getOrCreate_mem ci.1 ck
      ⟨ci.2.1, ci.2.2, []⟩ c b.categories hc
    by_cases hck : ci.1 = ck
    · subst hck
      rw [alookup_updateAt_self, hc1, Option.map_some']
      refine ⟨_, rfl, rfl, rfl, ?_⟩
      intro tk t ht
      have ht1 := alookup_getOrCreate_mem (normalize_key r.text_name) tk
        ⟨r.text_name, r.text_name ++ str " study", []⟩ t c.texts ht
      by_cases htk : normalize_key r.text_name = tk
      · subst htk
        rw [alookup_updateAt_self, ht1, Option.map_some']
        exact ⟨_, rfl, rfl, rfl⟩
      · rw [alookup_updateAt_ne _ _ _ _ htk, ht1]
        exact ⟨t, rfl, rfl, rfl⟩
    · rw [alookup_updateAt_ne _ _ _ _ hck, hc1]
      refine ⟨c, rfl, rfl, rfl, ?_⟩
      intro tk t ht
      exact ⟨t, ht, rfl, rfl⟩
  · rw [alookup_updateAt_ne _ _ _ _ hk]
    exact preservesFields_refl bs k b hb

theorem processRow_preservesFields (bs : Batches) (r : Row) :
    PreservesFields bs (processRow bs r) := by
  dsimp only [processRow]
  by_cases hk : hasKey (normalize_key r.batch_name) bs = true
  · rw [if_pos hk]
    cases hng : r.is_ongoing
    · simp only [hng, if_false, List.foldl]
      exact addToCategory_preservesFields bs _ r _
    · simp only [hng, if_true, List.foldl]
      exact preservesFields_trans _ _ _
        (addToCategory_preservesFields bs _ r _)
        (addToCategory_preservesFields _ _ r _)
  · rw [if_neg hk]
    cases hng : r.is_ongoing
    · simp only [hng, if_false, List.foldl]
      exact preservesFields_trans _ _ _
        (preservesFields_insertNew bs _ _)
        (addToCategory_preservesFields _ _ r _)
    · simp only [hng, if_true, List.foldl]
      exact preservesFields_trans _ _ _
        (preservesFields_insertNew bs _ _)
        (preservesFields_trans _ _ _
          (addToCategory_preservesFields _ _ r _)
          (addToCategory_preservesFields _ _ r _))

theorem foldl_processRow_preservesFields (rows : List Row) (bs : Batches) :
    PreservesFields bs (List.foldl processRow bs rows) := by
  induction rows generalizing bs with
  | nil => exact preservesFields_refl bs
  | cons r rows ih =>
    rw [List.foldl_cons]
    exact preservesFields_trans _ _ _ (processRow_preservesFields bs r)
      (ih (processRow bs r))

/-- The batch-key list after a row: unchanged when the batch key already
    exists, extended by exactly that key otherwise. -/
theorem keysOf_processRow (bs : Batches) (r : Row) :
    keysOf (processRow bs r) =
      if hasKey (normalize_key r.batch_name) bs = true then keysOf bs
      else keysOf bs ++ [normalize_key r.batch_name] := by
  dsimp only [processRow]
  by_cases hk : hasKey (normalize_key r.batch_name) bs = true
  · rw [if_pos hk, if_pos hk]
    cases hng : r.is_ongoing <;>
      simp only [hng, if_false, if_true, List.foldl, keysOf_addToCategory]
  · rw [if_neg hk, if_neg hk]
    cases hng : r.is_ongoing <;>
      simp only [hng, if_false, if_true, List.foldl, keysOf_addToCategory] <;>
      · unfold insertNew keysOf
        rw [List.map_append]
        rfl

/-- C6: nodes are created at most once and thereafter reused.  First part:
    over any input sequence, every batch/category/text node present in the
    starting state is still present afterwards with its display name and
    description unchanged (processing later records with the same keys never
    overwrites them).  Second part: a batch node is created exactly on
    first encounter — the batch-key list is extended by the row's key only
    when that key is absent, and is unchanged otherwise. -/
theorem nodes_created_once_then_reused :
    (∀ (rows : List Row) (bs : Batches),
      PreservesFields bs (List.foldl processRow bs rows)) ∧
    (∀ (bs : Batches) (r : Row),
      keysOf (processRow bs r) =
        if hasKey (normalize_key r.batch_name) bs = true then keysOf bs
        else keysOf bs ++ [normalize_key r.batch_name]) :=
  ⟨foldl_processRow_preservesFields, keysOf_processRow⟩

/-- Witness for `nodes_created_once_then_reused`: a pre-existing batch node
    keyed `"x"` survives the processing of a row with the same batch key,
    name and description intact. -/
theorem nodes_created_once_then_reused_witness :
    ∃ b', alookup (str "x")
        (List.foldl processRow [(str "x", ⟨str "N", str "D", []⟩)]
          [⟨str "x", str "c", str "t", 1, str "p", false, none⟩]) = some b' ∧
      b'.name = str "N" ∧ b'.description = str "D" := by
  obtain ⟨b', h1, h2, h3, _⟩ := nodes_created_once_then_reused.1
    [⟨str "x", str "c", str "t", 1, str "p", false, none⟩]
    [(str "x", ⟨str "N", str "D", []⟩)]
    (str "x") ⟨str "N", str "D", []⟩ (by decide)
  exact ⟨b', h1, h2, h3⟩

/- ### Claim C10: metadata is looked up from the raw first-row name -/

theorem keysOf_getOrCreate {α : Type} (k : Str) (v : α)
    (l : List (Str × α)) :
    keysOf (getOrCreate k v l) =
      if hasKey k l = true then keysOf l else keysOf l ++ [k] := by
  unfold getOrCreate
  by_cases h : hasKey k l = true
  · rw [if_pos h, if_pos h]
  · rw [if_neg h, if_neg h]
    unfold insertNew keysOf
    rw [List.map_append]
    rfl

/-- Effect of `addToCategory` on the batch it targets: name and description
    kept, category-key list extended only on first encounter, and existing
    categories keep their name and description. -/
theorem alookup_addToCategory_same_batch (bs : Batches) (bk : Str) (r : Row)
    (ci : Str × Str × Str) (b : Batch) (hb : alookup bk bs = some b) :
    ∃ b', alookup bk (addToCategory bk r ci bs) = some b' ∧
      b'.name = b.name ∧ b'.description = b.description ∧
      keysOf b'.categories =
        (if hasKey ci.1 b.categories = true then keysOf b.categories
         else keysOf b.categories ++ [ci.1]) ∧
      ∀ ck c, alookup ck b.categories = some c →
        ∃ c', alookup ck b'.categories = some c' ∧
          c'.name = c.name ∧ c'.description = c.description := by
  unfold addToCategory
  rw [alookup_updateAt_self, hb, Option.map_some']
  refine ⟨_, rfl, rfl, rfl, ?_, ?_⟩
  · rw [keysOf_updateAt, keysOf_getOrCreate]
  · intro ck c hc
    have hc1 := alookup_getOrCreate_mem ci.1 ck
      ⟨ci.2.1, ci.2.2, []⟩ c b.categories hc
    by_cases hck : ci.1 = ck
    · subst hck
      rw [alookup_updateAt_self, hc1, Option.map_some']
      exact ⟨_, rfl, rfl, rfl⟩
    · rw [alookup_updateAt_ne _ _ _ _ hck, hc1]
      exact ⟨c, rfl, rfl, rfl⟩

/-- A non-ongoing row whose batch key already exists reduces to a single
    `addToCategory` call. -/
theorem processRow_existing_batch (bs : Batches) (r : Row)
    (hk : hasKey (normalize_key r.batch_name) bs = true)
    (hng : r.is_ongoing = false) :
    processRow bs r =
      addToCategory (normalize_key r.batch_name) r
        (normalize_key r.category_name, (get_category_info r.category_name).1,
         (get_category_info r.category_name).2) bs := by
  dsimp only [processRow]
  rw [if_pos hk]
  simp only [hng, Bool.false_eq_true, if_false, List.foldl_cons, List.foldl_nil]

/-- The full structure built from a single non-ongoing row. -/
theorem processRow_nil_not_ongoing (r : Row) (hng : r.is_ongoing = false) :
    processRow [] r =
      [(normalize_key r.batch_name,
        ⟨(get_batch_info r.batch_name).1, (get_batch_info r.batch_name).2,
         [(normalize_key r.category_name,
           ⟨(get_category_info r.category_name).1,
            (get_category_info r.category_name).2,
            [(normalize_key r.text_name,
              ⟨r.text_name, r.text_name ++ str " study",
               [⟨r.text_name, r.playlist_id, r.text_name ++ str " study",
                 r.video_count, none⟩]⟩)]⟩)]⟩)] := by
  simp [processRow, addToCategory, getOrCreate, hasKey, alookup, insertNew,
    updateAt, hng]

/-- A second non-ongoing row whose batch and category keys match an
    existing (single-batch, single-category) state is merged into the
    existing nodes: no new node appears, and the existing nodes keep their
    name and description. -/
theorem second_row_merges (r2 : Row) (hng2 : r2.is_ongoing = false)
    (bk ck : Str) (b1 : Batch) (c1 : Category)
    (hb : normalize_key r2.batch_name = bk)
    (hc : normalize_key r2.category_name = ck)
    (hcats : b1.categories = [(ck, c1)]) :
    keysOf (processRow [(bk, b1)] r2) = [bk] ∧
    ∃ b, alookup bk (processRow [(bk, b1)] r2) = some b ∧
      b.name = b1.name ∧ b.description = b1.description ∧
      keysOf b.categories = [ck] ∧
      ∃ c, alookup ck b.categories = some c ∧
        c.name = c1.name ∧ c.description = c1.description := by
  have hkey : hasKey (normalize_key r2.batch_name) [(bk, b1)] = true := by
    simp [hasKey, alookup, hb]
  rw [processRow_existing_batch _ r2 hkey hng2, hb, hc]
  have hb1 : alookup bk [(bk, b1)] = some b1 := by
    simp [alookup]
  obtain ⟨b', h', hn, hd, hk2, hcpre⟩ :=
    alookup_addToCategory_same_batch [(bk, b1)] bk r2
      (ck, (get_category_info r2.category_name).1,
       (get_category_info r2.category_name).2) b1 hb1
  have hckey : hasKey ck b1.categories = true := by
    rw [hcats]
    simp [hasKey, alookup]
  rw [hckey, if_pos rfl, hcats] at hk2
  have hc1 : alookup ck b1.categories = some c1 := by
    rw [hcats]
    simp [alookup]
  obtain ⟨c', hc', hcn, hcd⟩ := hcpre ck c1 hc1
  refine ⟨?_, b', h', hn, hd, ?_, c', hc', hcn, hcd⟩
  · rw [keysOf_addToCategory]
    simp [keysOf]
  · rw [hk2]
    simp [keysOf]

/-- C10: batch and category display metadata are looked up from the raw
    (trimmed, un-normalized) name of the first row that creates the node;
    two non-ongoing rows whose raw batch (and category) names differ but
    normalize to the same keys are merged into a single node per level, and
    that node keeps the first row's metadata
    (`get_batch_info r1.batch_name` / `get_category_info r1.category_name`),
    regardless of the second row's raw names. -/
theorem raw_name_metadata_merging (r1 r2 : Row)
    (hng1 : r1.is_ongoing = false) (hng2 : r2.is_ongoing = false)
    (hb : normalize_key r2.batch_name = normalize_key r1.batch_name)
    (hc : normalize_key r2.category_name = normalize_key r1.category_name) :
    keysOf (processRow (processRow [] r1) r2) =
      [normalize_key r1.batch_name] ∧
    ∃ b, alookup (normalize_key r1.batch_name)
          (processRow (processRow [] r1) r2) = some b ∧
      b.name = (get_batch_info r1.batch_name).1 ∧
      b.description = (get_batch_info r1.batch_name).2 ∧
      keysOf b.categories = [normalize_key r1.category_name] ∧
      ∃ c, alookup (normalize_key r1.category_name) b.categories = some c ∧
        c.name = (get_category_info r1.category_name).1 ∧
        c.description = (get_category_info r1.category_name).2 := by
  rw [processRow_nil_not_ongoing r1 hng1]
  exact second_row_merges r2 hng2
    (normalize_key r1.batch_name) (normalize_key r1.category_name)
    ⟨(get_batch_info r1.batch_name).1, (get_batch_info r1.batch_name).2,
     [(normalize_key r1.category_name,
       ⟨(get_category_info r1.category_name).1,
        (get_category_info r1.category_name).2,
        [(normalize_key r1.text_name,
          ⟨r1.text_name, r1.text_name ++ str " study",
           [⟨r1.text_name, r1.playlist_id, r1.text_name ++ str " study",
             r1.video_count, none⟩]⟩)]⟩)]⟩
    ⟨(get_category_info r1.category_name).1,
     (get_category_info r1.category_name).2,
     [(normalize_key r1.text_name,
       ⟨r1.text_name, r1.text_name ++ str " study",
        [⟨r1.text_name, r1.playlist_id, r1.text_name ++ str " study",
          r1.video_count, none⟩]⟩)]⟩
    hb hc rfl

/-- Witness for `raw_name_metadata_merging`: a first row with raw batch
    name `"tattvamasi"` (not in the curated table, which keys
    `"Tattvamasi"`) creates the node with display name `"tattvamasi"` and
    empty description; a second row with raw batch name `"Tattvamasi"`
    merges into it without upgrading the metadata. -/
theorem raw_name_metadata_merging_witness :
    keysOf (processRow (processRow []
        ⟨str "tattvamasi", str "Upanishad", str "Katha", 1,
         str "PL1", false, none⟩)
      ⟨str "Tattvamasi", str "Upanishad", str "Katha", 2,
       str "PL2", false, none⟩) = [normalize_key (str "tattvamasi")] ∧
    ∃ b, alookup (normalize_key (str "tattvamasi"))
          (processRow (processRow []
              ⟨str "tattvamasi", str "Upanishad", str "Katha", 1,
               str "PL1", false, none⟩)
            ⟨str "Tattvamasi", str "Upanishad", str "Katha", 2,
             str "PL2", false, none⟩) = some b ∧
      b.name = (get_batch_info (str "tattvamasi")).1 ∧
      b.description = (get_batch_info (str "tattvamasi")).2 ∧
      keysOf b.categories = [normalize_key (str "Upanishad")] ∧
      ∃ c, alookup (normalize_key (str "Upanishad")) b.categories = some c ∧
        c.name = (get_category_info (str "Upanishad")).1 ∧
        c.description = (get_category_info (str "Upanishad")).2 :=
  raw_name_metadata_merging
    ⟨str "tattvamasi", str "Upanishad", str "Katha", 1, str "PL1", false, none⟩
    ⟨str "Tattvamasi", str "Upanishad", str "Katha", 2, str "PL2", false, none⟩
    rfl rfl (by decide) (by decide)

/-- The curated batch table has no entry for the lower-cased raw name
    `"tattvamasi"`, so the fallback applies: display name `"tattvamasi"`,
    empty description — not the curated `"Tattvamasi Batch"` entry. -/
theorem get_batch_info_lowercase_fallback :
    get_batch_info (str "tattvamasi") = (str "tattvamasi", []) ∧
    get_batch_info (str "Tattvamasi") =
      (str "Tattvamasi Batch", str "Coimbatore Batch") := by
  decide

/- ### Claim C5: aggregate metadata equals direct enumeration -/

theorem length_concatMap {α β : Type} (f : α → List β) (l : List α) :
    (concatMap f l).length = (l.map (fun a => (f a).length)).sum := by
  induction l with
  | nil => rfl
  | cons a l ih =>
    unfold concatMap
    rw [List.length_append, ih, List.map_cons, List.sum_cons]

theorem sum_map_concatMap {α β : Type} (f : α → List β) (g : β → Nat)
    (l : List α) :
    ((concatMap f l).map g).sum = (l.map (fun a => ((f a).map g).sum)).sum := by
  induction l with
  | nil => rfl
  | cons a l ih =>
    unfold concatMap
    rw [List.map_append, List.sum_append, ih, List.map_cons, List.sum_cons]

/-- Every category node of the document, once per batch containing it. -/
def allCategories (bs : Batches) : List (Str × Category) :=
  concatMap (fun b => b.2.categories) bs

/-- Every text node, across all categories of all batches. -/
def allTexts (bs : Batches) : List (Str × TextEntry) :=
  concatMap (fun c => c.2.texts) (allCategories bs)

/-- Every playlist entry, across all texts of all categories of all
    batches. -/
def allPlaylists (bs : Batches) : List Playlist :=
  concatMap (fun t => t.2.playlists) (allTexts bs)

theorem computeMetadata_spec (bs : Batches) :
    (computeMetadata bs).total_batches = bs.length ∧
    (computeMetadata bs).total_categories = (allCategories bs).length ∧
    (computeMetadata bs).total_texts = (allTexts bs).length ∧
    (computeMetadata bs).total_playlists = (allPlaylists bs).length := by
  refine ⟨rfl, ?_, ?_, ?_⟩
  · unfold computeMetadata allCategories
    rw [length_concatMap]
  · unfold computeMetadata allTexts allCategories
    rw [length_concatMap, sum_map_concatMap]
  · unfold computeMetadata allPlaylists allTexts allCategories
    rw [length_concatMap, sum_map_concatMap, sum_map_concatMap]

/-- C5: for every completed document, the aggregate metadata equals direct
    enumeration of the nested structure: `total_batches` is the number of
    batch keys, `total_categories` the number of category nodes summed
    across batches (once per batch), `total_texts` the number of text nodes
    across all categories of all batches, and `total_playlists` the total
    length of all playlist lists. -/
theorem metadata_counts (today : Str) (input : List RawRow) (doc : Document)
    (h : generate_data_json today input = some doc) :
    doc.metadata.total_batches = doc.batches.length ∧
    doc.metadata.total_categories = (allCategories doc.batches).length ∧
    doc.metadata.total_texts = (allTexts doc.batches).length ∧
    doc.metadata.total_playlists = (allPlaylists doc.batches).length := by
  unfold generate_data_json at h
  cases hrr : runRows [] input with
  | none => rw [hrr] at h; cases h
  | some bs =>
    rw [hrr] at h
    cases h
    exact computeMetadata_spec bs

/-- Witness for `metadata_counts` at a one-row input. -/
theorem metadata_counts_witness :
    generate_data_json (str "2024-01-01")
        [⟨str "Jignasu", str "Satsang", str "QA", str "7", str "PL9",
          str "No", []⟩] =
      some ⟨⟨str "Brahma Vidya Mandir", str "Learning Portal",
             str "2024-01-01"⟩,
            processRow [] ⟨str "Jignasu", str "Satsang", str "QA", 7,
              str "PL9", false, none⟩,
            computeMetadata (processRow []
              ⟨str "Jignasu", str "Satsang", str "QA", 7,
               str "PL9", false, none⟩)⟩ ∧
    ((⟨⟨str "Brahma Vidya Mandir", str "Learning Portal", str "2024-01-01"⟩,
       processRow [] ⟨str "Jignasu", str "Satsang", str "QA", 7,
         str "PL9", false, none⟩,
       computeMetadata (processRow []
         ⟨str "Jignasu", str "Satsang", str "QA", 7,
          str "PL9", false, none⟩)⟩ : Document).metadata.total_batches =
      (processRow [] ⟨str "Jignasu", str "Satsang", str "QA", 7,
        str "PL9", false, none⟩).length) :=
  ⟨by decide,
   (metadata_counts (str "2024-01-01")
     [⟨str "Jignasu", str "Satsang", str "QA", str "7", str "PL9",
       str "No", []⟩] _ (by decide)).1⟩

/- ### Claim C9: determinism up to the embedded date -/

/-- Overwrite the document's last-updated date. -/
def withDate (t : Str) (d : Document) : Document :=
  { d with site_info := { d.site_info with last_updated := t } }

/-- C9: the transformation is deterministic and depends on the current date
    only through `site_info.last_updated`: the documents produced from the
    same input on two different dates agree after overwriting that one
    field.  (Serialization is a pure function of the document, so the
    emitted bytes likewise differ only in the date field.) -/
theorem deterministic_except_date (t1 t2 : Str) (input : List RawRow) :
    generate_data_json t1 input =
      (generate_data_json t2 input).map (withDate t1) := by
  unfold generate_data_json
  cases runRows [] input with
  | none => rfl
  | some bs => rfl

/- ### Claim C8: file-level behavior of a whole run -/

/-- Escape a string for JSON embedding (quote and backslash). -/
def jsonEscape (s : Str) : Str :=
  concatMap (fun c => if c = '"' ∨ c = '\\' then ['\\', c] else [c]) s

/-- A JSON string literal. -/
def jsonStr (s : Str) : Str := '"' :: (jsonEscape s ++ ['"'])

/-- Join rendered pieces with commas. -/
def joinComma : List Str → Str
  | [] => []
  | [x] => x
  | x :: xs => x ++ ',' :: joinComma xs

/-- A `"key": value` member. -/
def jsonField (k : Str) (v : Str) : Str := jsonStr k ++ ':' :: v

/-- A JSON object from rendered members (the hex escapes are the braces). -/
def jsonObj (fields : List Str) : Str :=
  '\x7b' :: (joinComma fields ++ ['\x7d'])

/-- A JSON array from rendered elements. -/
def jsonArr (elems : List Str) : Str :=
  '[' :: (joinComma elems ++ [']'])

/-- Decimal rendering of an integer. -/
def intToStr (i : Int) : Str :=
  if i < 0 then '-' :: natToStr i.natAbs else natToStr i.natAbs

def serializePlaylist (p : Playlist) : Str :=
  jsonObj ([jsonField (str "name") (jsonStr p.name),
    jsonField (str "playlist_id") (jsonStr p.playlist_id),
    jsonField (str "description") (jsonStr p.description),
    jsonField (str "video_count") (intToStr p.video_count)] ++
    (match p.latest_video_id with
     | none => []
     | some v => [jsonField (str "latest_video_id") (jsonStr v)]))

def serializeText (t : TextEntry) : Str :=
  jsonObj [jsonField (str "name") (jsonStr t.name),
    jsonField (str "description") (jsonStr t.description),
    jsonField (str "playlists") (jsonArr (t.playlists.map serializePlaylist))]

def serializeCategory (c : Category) : Str :=
  jsonObj [jsonField (str "name") (jsonStr c.name),
    jsonField (str "description") (jsonStr c.description),
    jsonField (str "texts")
      (jsonObj (c.texts.map (fun kv => jsonField kv.1 (serializeText kv.2))))]

def serializeBatch (b : Batch) : Str :=
  jsonObj [jsonField (str "name") (jsonStr b.name),
    jsonField (str "description") (jsonStr b.description),
    jsonField (str "categories")
      (jsonObj (b.categories.map
        (fun kv => jsonField kv.1 (serializeCategory kv.2))))]

def serializeSiteInfo (si : SiteInfo) : Str :=
  jsonObj [jsonField (str "title") (jsonStr si.title),
    jsonField (str "description") (jsonStr si.description),
    jsonField (str "last_updated") (jsonStr si.last_updated)]

def serializeMetadata (m : Metadata) : Str :=
  jsonObj [jsonField (str "total_batches") (natToStr m.total_batches),
    jsonField (str "total_categories") (natToStr m.total_categories),
    jsonField (str "total_texts") (natToStr m.total_texts),
    jsonField (str "total_playlists") (natToStr m.total_playlists),
    jsonField (str "youtube_api_version") (jsonStr m.youtube_api_version),
    jsonField (str "cache_duration") (natToStr m.cache_duration),
    jsonField (str "update_frequency") (jsonStr m.update_frequency)]

/-- JSON rendering of the document, modelling `json.dump(data, file,
    indent=2, ensure_ascii=False)` at line 193.  It renders the same tree in
    the same key order; the `indent=2` whitespace is not reproduced, which
    no claim depends on. -/
def serialize (d : Document) : Str :=
  jsonObj [jsonField (str "site_info") (serializeSiteInfo d.site_info),
    jsonField (str "batches")
      (jsonObj (d.batches.map (fun kv => jsonField kv.1 (serializeBatch kv.2)))),
    jsonField (str "metadata") (serializeMetadata d.metadata)]

/-- Outcome of the output write: success, or an I/O failure after `n`
    characters have reached the file. -/
inductive WriteOutcome where
  | ok : WriteOutcome
  | failAfter : Nat → WriteOutcome
deriving DecidableEq

/-- One run of the script at the file-system level (lines 94 and 191-193).
    `input = none` models a missing `Classes.csv`: the `FileNotFoundError`
    of line 94 aborts before the output file is touched, as does a
    `ValueError` from a malformed video count during the loop.  Only on
    reaching line 192 does the script open `data.json` in truncating `'w'`
    mode, after which `json.dump` streams into it; a write failure after
    `n` characters (`WriteOutcome.failAfter n`) therefore leaves exactly
    the first `n` characters.  Returns the final content of `data.json`
    together with a success flag. -/
def runScript (today : Str) (input : Option (List RawRow)) (w : WriteOutcome)
    (oldOut : Option Str) : Option Str × Bool :=
  match input with
  | none => (oldOut, false)
  | some rows =>
    match generate_data_json today rows with
    | none => (oldOut, false)
    | some doc =>
      match w with
      | WriteOutcome.ok => (some (serialize doc), true)
      | WriteOutcome.failAfter n => (some ((serialize doc).take n), false)

/-- C8 (amended): every read/parse error — missing input file, or a
    non-numeric non-empty video count — aborts the run before the output
    file is opened, leaving any previous `data.json` exactly as it was; on
    full success the complete serialized document is written.  An
    output-write failure, however, happens after the truncating open, so it
    leaves the written prefix (a half-written file) — the original
    no-half-written-output guarantee does not hold for write failures. -/
theorem abort_before_write (today : Str) (input : Option (List RawRow))
    (w : WriteOutcome) (oldOut : Option Str) :
    (input = none → runScript today input w oldOut = (oldOut, false)) ∧
    (∀ rows, input = some rows → generate_data_json today rows = none →
      runScript today input w oldOut = (oldOut, false)) ∧
    (∀ rows doc, input = some rows → generate_data_json today rows = some doc →
      runScript today input w oldOut =
        (match w with
         | WriteOutcome.ok => (some (serialize doc), true)
         | WriteOutcome.failAfter n =>
            (some ((serialize doc).take n), false))) := by
  refine ⟨?_, ?_, ?_⟩
  · intro h
    rw [h]
    rfl
  · intro rows h hgen
    rw [h]
    unfold runScript
    dsimp only
    rw [hgen]
  · intro rows doc h hgen
    rw [h]
    unfold runScript
    dsimp only
    rw [hgen]

/-- Witness for `abort_before_write`: a run over a row with the non-numeric
    video count `"x"` fails and leaves the previous output untouched. -/
theorem abort_before_write_witness :
    runScript (str "2024-01-01")
        (some [⟨str "B", str "C", str "T", str "x", str "P", str "No", []⟩])
        WriteOutcome.ok (some (str "old")) = (some (str "old"), false) :=
  (abort_before_write (str "2024-01-01")
      (some [⟨str "B", str "C", str "T", str "x", str "P", str "No", []⟩])
      WriteOutcome.ok (some (str "old"))).2.1
    [⟨str "B", str "C", str "T", str "x", str "P", str "No", []⟩]
    rfl (by decide)

/-- C8 counterexample: an output-write failure CAN leave a half-written
    file.  With one well-formed row, a write that fails after one character
    ends the run unsuccessfully with `data.json` holding just `"{"` — which
    is neither the previous content, nor absent, nor the complete output of
    a successful run. -/
theorem write_failure_leaves_half_written :
    (runScript (str "2024-01-01") (some [⟨[], [], [], [], [], [], []⟩])
        (WriteOutcome.failAfter 1) (some (str "old"))) =
      (some (str "\x7b"), false) ∧
    str "\x7b" ≠ str "old" ∧
    (runScript (str "2024-01-01") (some [⟨[], [], [], [], [], [], []⟩])
        WriteOutcome.ok (some (str "old"))).1 ≠ some (str "\x7b") := by
  refine ⟨by decide, by decide, by decide⟩

end BVM
